import Mathlib

/-!
Shallow embedding of the redlock-go coordinator (redlock/redlock.go, the
context-based version) and its key-value ownership caches (redlock/kvcache.go).

Conventions of the embedding:
* Machine `int64` / `time.Duration` values are `Int` (nanoseconds for the
  context-based version, in which `ttl` is a `time.Duration`).
* `time.Since` on the monotonic clock is non-negative, so per-attempt elapsed
  times are `Nat` cast into `Int`.
* Randomness (`getRandStr`) and the outcome of each peer network operation are
  supplied by an environment (`LockEnv`): the embedding is a deterministic
  function of that oracle.
* The parallel fan-out of one attempt is modelled by its observable result:
  the per-peer outcome vector of the round (each goroutine contributes
  exactly one of acquired / canceled-by-caller / failed), since the
  coordinator only reads the aggregated atomic counters after `wg.Wait()`.
* Peer-visible operations are recorded in an event trace so that statements
  about which requests are issued (and with which token) can be made.
-/

namespace RedlockSpec

/-- LockElem from kvcache.go: `Val`, `Expiry` (nanoseconds), `Ts` (set time).
`Ts` is an absolute time in nanoseconds. -/
structure LockElem where
  val : String
  expiry : Int
  ts : Int
deriving DecidableEq, Repr

/-- LockElem.expire from kvcache.go: `time.Since(e.Ts).Nanoseconds() > e.Expiry`,
with the current time `now` passed explicitly. -/
def LockElem.expire (e : LockElem) (now : Int) : Bool :=
  now - e.ts > e.expiry

/-- State of SimpleCache: the map `kvs` as an association list (first binding
for a key is the current one; operations keep at most one binding per key). -/
abbrev SimpleSt : Type := List (String × LockElem)

/-- SimpleCache.Set: stores `{Val: val, Expiry: expiry, Ts: time.Now()}` under
`key`, overwriting any previous binding. Returns no error. -/
def simpleSet (st : SimpleSt) (now : Int) (key val : String) (expiry : Int) : SimpleSt :=
  (key, ⟨val, expiry, now⟩) :: List.filter (fun p => p.1 ≠ key) st

/-- SimpleCache.Get: returns the element when present and not expired
(`if ok && !elem.expire()`), else nil; the error is always nil. -/
def simpleGet (st : SimpleSt) (now : Int) (key : String) : Option LockElem × Option String :=
  match List.lookup key st with
  | some e => if e.expire now then (none, none) else (some e, none)
  | none => (none, none)

/-- SimpleCache.Delete: removes the binding for `key`. -/
def simpleDelete (st : SimpleSt) (key : String) : SimpleSt :=
  List.filter (fun p => p.1 ≠ key) st

/-- SimpleCache.gc: removes every expired element. -/
def simpleGc (st : SimpleSt) (now : Int) : SimpleSt :=
  List.filter (fun p => ¬ p.2.expire now) st

/-- Truncation toward zero of `a / 100`, the exact value of Go's
`int(float64(a) * 0.01)` (float64 conversion and truncating int conversion). -/
def truncDiv100 (a : Int) : Int :=
  if 0 ≤ a then a / 100 else -((-a) / 100)

/-- Truncation toward zero of `a / 1000`. -/
def truncDiv1000 (a : Int) : Int :=
  if 0 ≤ a then a / 1000 else -((-a) / 1000)

/-- Go's `int(math.Ceil(float64(e) / 1000))` from FreeCache.Set: ceiling of
`e / 1000`. -/
def ceilDiv1000 (e : Int) : Int :=
  if 0 ≤ e then (e + 999) / 1000 else truncDiv1000 e

/-- Entry of the underlying fixed-capacity freecache store: the serialized
LockElem (JSON round-trip modelled as the identity), the second at which it
was stored, and the TTL in seconds that FreeCache.Set passed down. -/
structure FcEntry where
  data : LockElem
  setSec : Int
  ttlSec : Int
deriving DecidableEq, Repr

/-- State of the underlying freecache store. -/
abbrev FreeSt : Type := List (String × FcEntry)

/-- Lookup of the underlying freecache store: an entry is gone once its
native second-granularity TTL has elapsed (`ErrNotFound`), otherwise the
stored bytes are returned. -/
def fcLookup (st : FreeSt) (nowSec : Int) (key : String) : Option FcEntry :=
  match List.lookup key st with
  | some en => if en.ttlSec ≠ 0 ∧ en.setSec + en.ttlSec ≤ nowSec then none else some en
  | none => none

/-- FreeCache.Set from kvcache.go: marshals `{val, expiry, Ts: now}` and stores
it with native TTL `int(math.Ceil(float64(expiry)/1000))` seconds (the `/1000`
is applied to a nanosecond quantity). The error of the underlying store's Set
(capacity / entry-too-large) is surfaced; the embedding covers the successful
store. -/
def freeSet (st : FreeSt) (nowNs nowSec : Int) (key val : String) (expiry : Int) :
    FreeSt × Option String :=
  ((key, ⟨⟨val, expiry, nowNs⟩, nowSec, ceilDiv1000 expiry⟩) ::
      List.filter (fun p => p.1 ≠ key) st, none)

/-- FreeCache.Get from kvcache.go: `ErrNotFound` maps to `(nil, nil)`; any
entry the underlying store still holds is unmarshalled and returned as is —
there is no `expire()` check against the record's own `Ts`/`Expiry`. -/
def freeGet (st : FreeSt) (nowSec : Int) (key : String) : Option LockElem × Option String :=
  match fcLookup st nowSec key with
  | none => (none, none)
  | some en => (some en.data, none)

/-- FreeCache.Delete. -/
def freeDelete (st : FreeSt) (key : String) : FreeSt :=
  List.filter (fun p => p.1 ≠ key) st

/-- Interface KVCache of kvcache.go, over a state type `σ`. `set` returns the
possibly-failed new state together with the error (the `*LockElem` return of
the Go `Set` is not consumed by the coordinator and is omitted); `get` returns
`(elem, err)`. The current time in nanoseconds is passed explicitly where the
Go code reads `time.Now()`. -/
structure CacheImpl (σ : Type) where
  set : σ → Int → String → String → Int → σ × Option String
  get : σ → Int → String → Option LockElem × Option String
  del : σ → String → σ

/-- KVCache instance backed by SimpleCache. -/
def simpleImpl : CacheImpl SimpleSt where
  set st now key val expiry := (simpleSet st now key val expiry, none)
  get st now key := simpleGet st now key
  del st key := simpleDelete st key

/-- KVCache instance backed by FreeCache (the underlying store's clock in
seconds is derived from the nanosecond clock). -/
def freeImpl : CacheImpl FreeSt where
  set st now key val expiry := freeSet st now (now / 1000000000) key val expiry
  get st now key := freeGet st (now / 1000000000) key
  del st key := freeDelete st key

/-- RedLock struct from redlock.go. `clients` keeps the peer addresses; the
`driftFactor` field always holds `ClockDriftFactor = 0.01` (there is no
setter) and is folded into `drift` below. -/
structure RedLock where
  retryCount : Nat
  retryDelay : Nat
  quorum : Nat
  clients : List String
deriving DecidableEq, Repr

/-- Construction error of NewRedLock: an even server list
(`fmt.Errorf("error redis server list: %d", len(addrs))`) or a
`parseConnString` failure on one address. -/
inductive ConstructErr where
  | evenServerList (n : Nat)
  | badAddr (a : String)
deriving DecidableEq, Repr

/-- NewRedLock from redlock.go. Address parsing (`parseConnString`, an
external-transport concern) is abstracted as the predicate `parse`: the Go
loop returns the first parse error; this is `List.find?` of the first bad
address. On success every field is fixed here: `retryCount = 10`,
`retryDelay = 200`, `quorum = len(addrs)/2 + 1`. -/
def newRedLock (parse : String → Bool) (addrs : List String) : Except ConstructErr RedLock :=
  if addrs.length % 2 = 0 then
    .error (.evenServerList addrs.length)
  else
    match List.find? (fun a => ¬ parse a) addrs with
    | some a => .error (.badAddr a)
    | none =>
        .ok { retryCount := 10, retryDelay := 200,
              quorum := addrs.length / 2 + 1, clients := addrs }

/-- Outcome of one goroutine of the acquisition fan-out (`lockInstance` plus
the caller's bookkeeping): exactly one of "locked" (`reply.Val()` true, no
error), "the context error was `context.Canceled`", or any other failure
(peer error, `ErrLockSingleRedis`, deadline exceeded). -/
inductive PeerRes where
  | acquired
  | canceled
  | failed
deriving DecidableEq, Repr

/-- Errors Lock can return: `context.Canceled` or `ErrAcquireLock`. -/
inductive LockErr where
  | canceled
  | acquireFailed
deriving DecidableEq, Repr

/-- Peer-visible events of one Lock call. `setnx i j tok` is the SetNX issued
to peer `j` in attempt `i` with token `tok`; `cleanup i j tok b` is the
conditional-delete (UnlockScript) issued to peer `j` in attempt `i`, whose
ignored outcome was `b`; `cacheSet` is the local ownership-cache write. -/
inductive Event where
  | genToken (tok : String)
  | setnx (attempt peer : Nat) (tok : String)
  | cleanup (attempt peer : Nat) (tok : String) (res : Bool)
  | cacheSet (resource tok : String) (validity : Int)
deriving DecidableEq, Repr

/-- Oracle for one Lock call: the stream of values `getRandStr` would return,
the per-attempt per-peer fan-out outcomes, the per-attempt elapsed time
`time.Since(start).Nanoseconds()` (non-negative: monotonic clock), the
current time at each attempt's cache write, and the ignored outcomes of the
cleanup fan-out. -/
structure LockEnv where
  tokens : Nat → String
  res : Nat → Nat → PeerRes
  cost : Nat → Nat
  nowAt : Nat → Int
  unlockRes : Nat → Nat → Bool

/-- Number of peers among `0..n-1` whose round outcome was "locked": the
value of the atomic `success` counter after `wg.Wait()`. -/
def successCount (res : Nat → PeerRes) (n : Nat) : Nat :=
  List.countP (fun j => decide (res j = PeerRes.acquired)) (List.range n)

/-- Whether some goroutine of the round observed `err == context.Canceled`:
the value of the `ctxCancel > 0` test after `wg.Wait()`. -/
def hasCanceled (res : Nat → PeerRes) (n : Nat) : Bool :=
  List.any (List.range n) (fun j => decide (res j = PeerRes.canceled))

/-- Drift margin of one attempt, from redlock.go:
`drift := int(float64(ttl)*r.driftFactor) + 2` with `driftFactor = 0.01` and
`ttl` a `time.Duration` in nanoseconds — so the fixed overhead added is 2
nanoseconds. -/
def drift (ttl : Int) : Int :=
  truncDiv100 ttl + 2

/-- Modelled from the spec: the drift margin the specification prescribes,
`ttl * ClockDriftFactor(0.01) + fixedOverhead(2ms)`, with the fixed overhead
of 2 milliseconds expressed in nanoseconds. -/
def driftSpecTwoMs (ttl : Int) : Int :=
  truncDiv100 ttl + 2000000

/-- Remaining validity computed by one attempt:
`validityTime := int64(ttl) - costTime - int64(drift)`. -/
def validity (ttl : Int) (cost : Nat) : Int :=
  ttl - (cost : Int) - drift ttl

/-- Commit condition of one attempt:
`int(success) >= r.quorum && validityTime > 0`. -/
def commitCond (rl : RedLock) (env : LockEnv) (ttl : Int) (i : Nat) : Prop :=
  rl.quorum ≤ successCount (env.res i) rl.clients.length ∧ 0 < validity ttl (env.cost i)

instance (rl : RedLock) (env : LockEnv) (ttl : Int) (i : Nat) :
    Decidable (commitCond rl env ttl i) := by
  unfold commitCond; infer_instance

/-- SetNX events of attempt `i`: one per peer. -/
def roundSet (i : Nat) (tok : String) (n : Nat) : List Event :=
  List.map (fun j => Event.setnx i j tok) (List.range n)

/-- Cleanup events of attempt `i`: one conditional-delete per peer, recording
the outcome the coordinator discards. -/
def roundClean (env : LockEnv) (i : Nat) (tok : String) (n : Nat) : List Event :=
  List.map (fun j => Event.cleanup i j tok (env.unlockRes i j)) (List.range n)

/-- Retry loop of Lock, from attempt `i` with `fuel` attempts left
(`fuel = retryCount - i`). Each iteration: fan out SetNX to every peer, wait
for the round to drain; if any goroutine saw `context.Canceled`, return
`(0, context.Canceled)` at once (no cleanup, no retry); else if the commit
condition holds, write the ownership cache (both results of `Set`
discarded) and return `(validityTime, nil)`; else fan out the conditional
delete to every peer, wait for all of them, ignore their outcomes, and
retry. Out of fuel: `(0, ErrAcquireLock)`. -/
def lockLoop {σ : Type} (rl : RedLock) (impl : CacheImpl σ) (env : LockEnv)
    (resource : String) (ttl : Int) (val : String) :
    Nat → Nat → σ → σ × (Int × Option LockErr) × List Event
  | _, 0, st => (st, (0, some LockErr.acquireFailed), [])
  | i, fuel + 1, st =>
    let n := rl.clients.length
    if hasCanceled (env.res i) n then
      (st, (0, some LockErr.canceled), roundSet i val n)
    else if commitCond rl env ttl i then
      let v := validity ttl (env.cost i)
      let st' := (impl.set st (env.nowAt i) resource val v).1
      (st', (v, none), roundSet i val n ++ [Event.cacheSet resource val v])
    else
      let rest := lockLoop rl impl env resource ttl val (i + 1) fuel st
      (rest.1, rest.2.1, roundSet i val n ++ roundClean env i val n ++ rest.2.2)

/-- Lock from redlock.go: `val := getRandStr()` is drawn once, before the
retry loop, and that single token is used by every attempt. Returns the new
cache state, the `(int64, error)` pair Lock returns, and the event trace. -/
def lock {σ : Type} (rl : RedLock) (impl : CacheImpl σ) (env : LockEnv)
    (resource : String) (ttl : Int) (st : σ) :
    σ × (Int × Option LockErr) × List Event :=
  let val := env.tokens 0
  let r := lockLoop rl impl env resource ttl val 0 rl.retryCount st
  (r.1, r.2.1, Event.genToken val :: r.2.2)

/-- Peer-visible events of one UnLock call: the conditional-delete issued to
each peer with the cached token, and the ignored outcome. -/
def unlockEvents (rl : RedLock) (tok : String) (ures : Nat → Bool) : List (Nat × String × Bool) :=
  List.map (fun j => (j, tok, ures j)) (List.range rl.clients.length)

/-- UnLock from redlock.go: look up the resource in the ownership cache; a
cache error is returned as is; a nil element returns nil with no peer
operation; otherwise fan out the conditional delete to every peer with the
cached token (outcomes ignored), and delete the cache entry (deferred). -/
def unLock {σ : Type} (rl : RedLock) (impl : CacheImpl σ) (ures : Nat → Bool)
    (now : Int) (st : σ) (resource : String) :
    σ × Option String × List (Nat × String × Bool) :=
  match impl.get st now resource with
  | (_, some err) => (st, some err, [])
  | (none, none) => (st, none, [])
  | (some elem, none) =>
      (impl.del st resource, none, unlockEvents rl elem.val ures)

/-- Rounds recorded in a trace: each attempt contributes exactly one SetNX to
peer 0 (when there is at least one peer). -/
def countRounds (tr : List Event) : Nat :=
  List.countP
    (fun e => match e with
      | Event.setnx _ 0 _ => true
      | _ => false) tr

/-- Token-generation events recorded in a trace. -/
def countGen (tr : List Event) : Nat :=
  List.countP
    (fun e => match e with
      | Event.genToken _ => true
      | _ => false) tr

/-- Trace of `d` consecutive failed (non-canceled, non-committing) attempts
starting at attempt `i`. -/
def failedRounds (env : LockEnv) (val : String) (n : Nat) : Nat → Nat → List Event
  | _, 0 => []
  | i, d + 1 => roundSet i val n ++ roundClean env i val n ++ failedRounds env val n (i + 1) d

/-- Concrete coordinator for sample runs: one peer, quorum 2 (never reachable
with one peer), two attempts. -/
def oneClientLock : RedLock :=
  { retryCount := 2, retryDelay := 200, quorum := 2, clients := ["tcp://127.0.0.1:6379"] }

/-- Concrete oracle whose token stream yields "a" then "b", with every peer
SetNX failing (peers unreachable) and zero elapsed time. -/
def failEnv : LockEnv where
  tokens k := if k = 0 then "a" else "b"
  res _ _ := PeerRes.failed
  cost _ := 0
  nowAt _ := 0
  unlockRes _ _ := true

/-- Concrete run of Lock against `oneClientLock` under `failEnv` with
`ttl` = 1 second. -/
def failRun : SimpleSt × (Int × Option LockErr) × List Event :=
  lock oneClientLock simpleImpl failEnv "foo" 1000000000 []

/-- Concrete coordinator: three peers, quorum 2, a single attempt. -/
def threeClientLock : RedLock :=
  { retryCount := 1, retryDelay := 200, quorum := 2, clients := ["s1", "s2", "s3"] }

/-- Concrete oracle where every peer acquires instantly. -/
def allAcquireEnv : LockEnv where
  tokens _ := "t"
  res _ _ := PeerRes.acquired
  cost _ := 0
  nowAt _ := 0
  unlockRes _ _ := true

/-- Concrete oracle where every peer observes the caller's cancellation. -/
def cancelEnv : LockEnv where
  tokens _ := "t"
  res _ _ := PeerRes.canceled
  cost _ := 0
  nowAt _ := 0
  unlockRes _ _ := true

/-- KVCache implementation whose Set always fails, as FreeCache.Set does on a
capacity / entry-too-large error of the underlying store. -/
def failingSetImpl : CacheImpl Unit where
  set st _ _ _ _ := (st, some "entry too large")
  get _ _ _ := (none, none)
  del st _ := st

end RedlockSpec

namespace RedlockSpec

/-! Structural lemmas about the Lock retry loop. -/

theorem lockLoop_zero {σ : Type} (rl : RedLock) (impl : CacheImpl σ) (env : LockEnv)
    (resource : String) (ttl : Int) (val : String) (i : Nat) (st : σ) :
    lockLoop rl impl env resource ttl val i 0 st = (st, (0, some LockErr.acquireFailed), []) :=
  rfl

theorem lockLoop_cancel {σ : Type} (rl : RedLock) (impl : CacheImpl σ) (env : LockEnv)
    (resource : String) (ttl : Int) (val : String) (i fuel : Nat) (st : σ)
    (h : hasCanceled (env.res i) rl.clients.length = true) :
    lockLoop rl impl env resource ttl val i (fuel + 1) st =
      (st, (0, some LockErr.canceled), roundSet i val rl.clients.length) := by
  simp [lockLoop, h]

theorem lockLoop_commit {σ : Type} (rl : RedLock) (impl : CacheImpl σ) (env : LockEnv)
    (resource : String) (ttl : Int) (val : String) (i fuel : Nat) (st : σ)
    (hnc : hasCanceled (env.res i) rl.clients.length = false)
    (hc : commitCond rl env ttl i) :
    lockLoop rl impl env resource ttl val i (fuel + 1) st =
      ((impl.set st (env.nowAt i) resource val (validity ttl (env.cost i))).1,
        (validity ttl (env.cost i), none),
        roundSet i val rl.clients.length ++
          [Event.cacheSet resource val (validity ttl (env.cost i))]) := by
  simp [lockLoop, hnc, hc]

theorem lockLoop_fail {σ : Type} (rl : RedLock) (impl : CacheImpl σ) (env : LockEnv)
    (resource : String) (ttl : Int) (val : String) (i fuel : Nat) (st : σ)
    (hnc : hasCanceled (env.res i) rl.clients.length = false)
    (hc : ¬ commitCond rl env ttl i) :
    lockLoop rl impl env resource ttl val i (fuel + 1) st =
      ((lockLoop rl impl env resource ttl val (i + 1) fuel st).1,
        (lockLoop rl impl env resource ttl val (i + 1) fuel st).2.1,
        roundSet i val rl.clients.length ++ roundClean env i val rl.clients.length ++
          (lockLoop rl impl env resource ttl val (i + 1) fuel st).2.2) := by
  simp [lockLoop, hnc, hc]

theorem lockLoop_skip {σ : Type} (rl : RedLock) (impl : CacheImpl σ) (env : LockEnv)
    (resource : String) (ttl : Int) (val : String) :
    ∀ (d fuel i : Nat) (st : σ),
      (∀ k, i ≤ k → k < i + d →
        hasCanceled (env.res k) rl.clients.length = false ∧ ¬ commitCond rl env ttl k) →
      lockLoop rl impl env resource ttl val i (d + fuel) st =
        ((lockLoop rl impl env resource ttl val (i + d) fuel st).1,
          (lockLoop rl impl env resource ttl val (i + d) fuel st).2.1,
          failedRounds env val rl.clients.length i d ++
            (lockLoop rl impl env resource ttl val (i + d) fuel st).2.2) := by
  intro d
  induction d with
  | zero =>
      intro fuel i st _
      simp [failedRounds]
  | succ s ih =>
      intro fuel i st h
      have hstep : s + 1 + fuel = (s + fuel) + 1 := by omega
      rw [hstep]
      have h0 := h i (le_refl i) (by omega)
      rw [lockLoop_fail rl impl env resource ttl val i (s + fuel) st h0.1 h0.2]
      have hrest := ih fuel (i + 1) st (fun k hk1 hk2 => h k (by omega) (by omega))
      rw [hrest]
      have hi : i + 1 + s = i + (s + 1) := by omega
      rw [hi]
      simp [failedRounds, List.append_assoc]

end RedlockSpec

namespace RedlockSpec

/-! Arithmetic of the validity window. -/

theorem validity_lt_ttl (ttl : Int) (c : Nat) (h : 0 < validity ttl c) :
    validity ttl c < ttl := by
  unfold validity drift truncDiv100 at h ⊢
  split at h <;> rename_i hs <;> simp only [hs] <;> omega

/-! Analysis of successful runs of the retry loop. -/

theorem lockLoop_ok {σ : Type} (rl : RedLock) (impl : CacheImpl σ) (env : LockEnv)
    (resource : String) (ttl : Int) (val : String) :
    ∀ (fuel i : Nat) (st : σ) (st2 : σ) (v : Int) (tr : List Event),
      lockLoop rl impl env resource ttl val i fuel st = (st2, (v, none), tr) →
      ∃ k, i ≤ k ∧ k < i + fuel ∧ commitCond rl env ttl k ∧ v = validity ttl (env.cost k) := by
  intro fuel
  induction fuel with
  | zero =>
      intro i st st2 v tr h
      rw [lockLoop_zero] at h
      simp at h
  | succ f ih =>
      intro i st st2 v tr h
      by_cases hc : hasCanceled (env.res i) rl.clients.length = true
      · rw [lockLoop_cancel rl impl env resource ttl val i f st hc] at h
        simp at h
      · have hnc : hasCanceled (env.res i) rl.clients.length = false := by
          simpa using hc
        by_cases hcm : commitCond rl env ttl i
        · rw [lockLoop_commit rl impl env resource ttl val i f st hnc hcm] at h
          refine ⟨i, le_refl i, by omega, hcm, ?_⟩
          have := congrArg (fun p => p.2.1.1) h
          simpa using this.symm
        · rw [lockLoop_fail rl impl env resource ttl val i f st hnc hcm] at h
          have h1 : lockLoop rl impl env resource ttl val (i + 1) f st =
              ((lockLoop rl impl env resource ttl val (i + 1) f st).1,
                (v, none),
                (lockLoop rl impl env resource ttl val (i + 1) f st).2.2) := by
            have h2 := congrArg (fun p => p.2.1) h
            simp at h2
            exact Prod.ext rfl (Prod.ext (by simp [h2]) rfl)
          obtain ⟨k, hk1, hk2, hk3, hk4⟩ :=
            ih (i + 1) st _ v _ h1
          exact ⟨k, by omega, by omega, hk3, hk4⟩

/-! Tokens used by the events of the retry loop. -/

theorem lockLoop_event_tok {σ : Type} (rl : RedLock) (impl : CacheImpl σ) (env : LockEnv)
    (resource : String) (ttl : Int) (val : String) :
    ∀ (fuel i : Nat) (st : σ) (e : Event),
      e ∈ (lockLoop rl impl env resource ttl val i fuel st).2.2 →
      (match e with
        | Event.genToken _ => False
        | Event.setnx _ _ tok => tok = val
        | Event.cleanup _ _ tok _ => tok = val
        | Event.cacheSet _ tok _ => tok = val) := by
  intro fuel
  induction fuel with
  | zero =>
      intro i st e he
      rw [lockLoop_zero] at he
      simp at he
  | succ f ih =>
      intro i st e he
      by_cases hc : hasCanceled (env.res i) rl.clients.length = true
      · rw [lockLoop_cancel rl impl env resource ttl val i f st hc] at he
        simp only [roundSet, List.mem_map, List.mem_range] at he
        obtain ⟨j, _, hj⟩ := he
        subst hj
        simp
      · have hnc : hasCanceled (env.res i) rl.clients.length = false := by
          simpa using hc
        by_cases hcm : commitCond rl env ttl i
        · rw [lockLoop_commit rl impl env resource ttl val i f st hnc hcm] at he
          simp only [roundSet, List.mem_append, List.mem_map, List.mem_range,
            List.mem_singleton] at he
          rcases he with ⟨j, _, hj⟩ | hj
          · subst hj; simp
          · subst hj; simp
        · rw [lockLoop_fail rl impl env resource ttl val i f st hnc hcm] at he
          simp only [roundSet, roundClean, List.mem_append, List.mem_map,
            List.mem_range] at he
          rcases he with (⟨j, _, hj⟩ | ⟨j, _, hj⟩) | hrest
          · subst hj; simp
          · subst hj; simp
          · exact ih (i + 1) st e hrest

theorem countGen_lockLoop {σ : Type} (rl : RedLock) (impl : CacheImpl σ) (env : LockEnv)
    (resource : String) (ttl : Int) (val : String) (fuel i : Nat) (st : σ) :
    countGen (lockLoop rl impl env resource ttl val i fuel st).2.2 = 0 := by
  unfold countGen
  rw [List.countP_eq_zero]
  intro e he
  have := lockLoop_event_tok rl impl env resource ttl val fuel i st e he
  cases e <;> simp_all

end RedlockSpec

namespace RedlockSpec

/-! Counting rounds in traces. -/

theorem countRounds_append (l1 l2 : List Event) :
    countRounds (l1 ++ l2) = countRounds l1 + countRounds l2 := by
  unfold countRounds
  exact List.countP_append _ _ _

theorem countRounds_roundSet (i : Nat) (val : String) :
    ∀ n : Nat, countRounds (roundSet i val n) = if 0 < n then 1 else 0 := by
  intro n
  induction n with
  | zero => rfl
  | succ m ih =>
      have : roundSet i val (m + 1) = roundSet i val m ++ [Event.setnx i m val] := by
        unfold roundSet
        rw [List.range_succ, List.map_append]
        rfl
      rw [this, countRounds_append, ih]
      cases m with
      | zero => rfl
      | succ m2 =>
          have h1 : countRounds [Event.setnx i (m2 + 1) val] = 0 := rfl
          rw [h1]
          simp

theorem countRounds_roundClean (env : LockEnv) (i : Nat) (val : String) (n : Nat) :
    countRounds (roundClean env i val n) = 0 := by
  unfold countRounds
  rw [List.countP_eq_zero]
  intro e he
  simp only [roundClean, List.mem_map, List.mem_range] at he
  obtain ⟨j, _, hj⟩ := he
  subst hj
  simp

theorem countRounds_failedRounds (env : LockEnv) (val : String) (n : Nat) (hn : 0 < n) :
    ∀ (d i : Nat), countRounds (failedRounds env val n i d) = d := by
  intro d
  induction d with
  | zero => intro i; rfl
  | succ s ih =>
      intro i
      unfold failedRounds
      rw [countRounds_append, countRounds_append, countRounds_roundSet,
        countRounds_roundClean, ih (i + 1)]
      simp [hn]
      omega

/-! Attempt indices of events in a block of failed rounds. -/

theorem cleanup_mem_failedRounds (env : LockEnv) (val : String) (n : Nat)
    (a j : Nat) (tok : String) (b : Bool) :
    ∀ (d i : Nat), Event.cleanup a j tok b ∈ failedRounds env val n i d → i ≤ a ∧ a < i + d := by
  intro d
  induction d with
  | zero => intro i h; simp [failedRounds] at h
  | succ s ih =>
      intro i h
      unfold failedRounds at h
      simp only [List.mem_append] at h
      rcases h with (h | h) | h
      · simp only [roundSet, List.mem_map, List.mem_range] at h
        obtain ⟨_, _, hj⟩ := h
        cases hj
      · simp only [roundClean, List.mem_map, List.mem_range] at h
        obtain ⟨j2, _, hj⟩ := h
        have : a = i := by cases hj; rfl
        omega
      · have := ih (i + 1) h
        omega

theorem setnx_mem_failedRounds (env : LockEnv) (val : String) (n : Nat)
    (a j : Nat) (tok : String) :
    ∀ (d i : Nat), Event.setnx a j tok ∈ failedRounds env val n i d → i ≤ a ∧ a < i + d := by
  intro d
  induction d with
  | zero => intro i h; simp [failedRounds] at h
  | succ s ih =>
      intro i h
      unfold failedRounds at h
      simp only [List.mem_append] at h
      rcases h with (h | h) | h
      · simp only [roundSet, List.mem_map, List.mem_range] at h
        obtain ⟨j2, _, hj⟩ := h
        have : a = i := by cases hj; rfl
        omega
      · simp only [roundClean, List.mem_map, List.mem_range] at h
        obtain ⟨_, _, hj⟩ := h
        cases hj
      · have := ih (i + 1) h
        omega

theorem setnx_mem_roundSet (i n a j : Nat) (val tok : String)
    (h : Event.setnx a j tok ∈ roundSet i val n) : a = i := by
  simp only [roundSet, List.mem_map, List.mem_range] at h
  obtain ⟨_, _, hj⟩ := h
  cases hj
  rfl

/-! Independence of the retry loop's result from the ignored cleanup outcomes. -/

theorem lockLoop_unlockRes_indep {σ : Type} (rl : RedLock) (impl : CacheImpl σ)
    (e1 e2 : LockEnv) (resource : String) (ttl : Int) (val : String)
    (hres : e1.res = e2.res) (hcost : e1.cost = e2.cost) (hnow : e1.nowAt = e2.nowAt) :
    ∀ (fuel i : Nat) (st : σ),
      (lockLoop rl impl e1 resource ttl val i fuel st).1 =
        (lockLoop rl impl e2 resource ttl val i fuel st).1 ∧
      (lockLoop rl impl e1 resource ttl val i fuel st).2.1 =
        (lockLoop rl impl e2 resource ttl val i fuel st).2.1 := by
  intro fuel
  induction fuel with
  | zero =>
      intro i st
      rw [lockLoop_zero, lockLoop_zero]
      exact ⟨rfl, rfl⟩
  | succ f ih =>
      intro i st
      have hcc : commitCond rl e1 ttl i ↔ commitCond rl e2 ttl i := by
        unfold commitCond
        rw [hres, hcost]
      by_cases hc : hasCanceled (e1.res i) rl.clients.length = true
      · rw [lockLoop_cancel rl impl e1 resource ttl val i f st hc,
          lockLoop_cancel rl impl e2 resource ttl val i f st (by rw [← hres]; exact hc)]
        exact ⟨rfl, rfl⟩
      · have hnc1 : hasCanceled (e1.res i) rl.clients.length = false := by simpa using hc
        have hnc2 : hasCanceled (e2.res i) rl.clients.length = false := by
          rw [← hres]; exact hnc1
        by_cases hcm : commitCond rl e1 ttl i
        · rw [lockLoop_commit rl impl e1 resource ttl val i f st hnc1 hcm,
            lockLoop_commit rl impl e2 resource ttl val i f st hnc2 (hcc.mp hcm)]
          rw [hcost, hnow]
          exact ⟨rfl, rfl⟩
        · rw [lockLoop_fail rl impl e1 resource ttl val i f st hnc1 hcm,
            lockLoop_fail rl impl e2 resource ttl val i f st hnc2 (fun h => hcm (hcc.mpr h))]
          exact ih (i + 1) st

end RedlockSpec

namespace RedlockSpec

/-! Lemmas about the SimpleCache operations. -/

theorem lookup_filter_ne (key : String) :
    ∀ st : List (String × LockElem),
      List.lookup key (List.filter (fun p => p.1 ≠ key) st) = none := by
  intro st
  induction st with
  | nil => rfl
  | cons hd tl ih =>
      obtain ⟨a, b⟩ := hd
      rw [List.filter_cons]
      by_cases h : a = key
      · have hcond : (decide ((a, b).1 ≠ key)) = false := by
          simp [h]
        rw [hcond]
        simp only [Bool.false_eq_true, if_false]
        exact ih
      · have hcond : (decide ((a, b).1 ≠ key)) = true := by
          simp [h]
        rw [hcond]
        simp only [if_true]
        have hne : (key == a) = false := by
          rw [beq_eq_false_iff_ne]
          exact fun hk => h hk.symm
        simp only [List.lookup, hne]
        exact ih

theorem simpleGet_err_none (st : SimpleSt) (now : Int) (key : String) :
    (simpleGet st now key).2 = none := by
  unfold simpleGet
  cases List.lookup key st with
  | none => rfl
  | some e =>
      by_cases h : e.expire now = true
      · simp [h]
      · simp only [Bool.not_eq_true] at h
        simp [h]

theorem simpleGet_delete (st : SimpleSt) (now : Int) (key : String) :
    simpleGet (simpleDelete st key) now key = (none, none) := by
  unfold simpleGet simpleDelete
  rw [lookup_filter_ne]

theorem expire_mono (e : LockElem) (now1 now2 : Int) (h : e.expire now1 = true)
    (hle : now1 ≤ now2) : e.expire now2 = true := by
  unfold LockElem.expire at h ⊢
  simp only [decide_eq_true_eq] at h ⊢
  omega

theorem simpleGet_none_iff (st : SimpleSt) (now : Int) (key : String) :
    (simpleGet st now key).1 = none ↔
      (∀ e, List.lookup key st = some e → e.expire now = true) := by
  unfold simpleGet
  cases hl : List.lookup key st with
  | none => simp
  | some e =>
      by_cases h : e.expire now = true
      · simp [h]
      · simp only [Bool.not_eq_true] at h
        simp [h]

end RedlockSpec

namespace RedlockSpec

/-! Unfolding of Lock into the retry loop. -/

theorem lock_def {σ : Type} (rl : RedLock) (impl : CacheImpl σ) (env : LockEnv)
    (resource : String) (ttl : Int) (st : σ) :
    lock rl impl env resource ttl st =
      ((lockLoop rl impl env resource ttl (env.tokens 0) 0 rl.retryCount st).1,
        (lockLoop rl impl env resource ttl (env.tokens 0) 0 rl.retryCount st).2.1,
        Event.genToken (env.tokens 0) ::
          (lockLoop rl impl env resource ttl (env.tokens 0) 0 rl.retryCount st).2.2) :=
  rfl

/-- C1 counterexample: in a concrete Lock call with two retry attempts
(one unreachable peer, token stream "a", "b", ttl 1s), the run makes two
acquisition attempts but generates only one token, and the second attempt's
SetNX carries the first attempt's token "a" — never the stream's next value
"b". This falsifies "each retry attempt uses a newly generated token". -/
theorem claim_C1_counterexample :
    countRounds failRun.2.2 = 2 ∧
    countGen failRun.2.2 = 1 ∧
    Event.setnx 0 0 "a" ∈ failRun.2.2 ∧
    Event.setnx 1 0 "a" ∈ failRun.2.2 ∧
    failEnv.tokens 1 = "b" ∧
    Event.setnx 1 0 "b" ∉ failRun.2.2 ∧
    Event.genToken "b" ∉ failRun.2.2 := by
  decide

/-- C1 as amended: `val := getRandStr()` is drawn exactly once per Lock call,
before the retry loop, and that single token is the one carried by every
SetNX and every cleanup conditional-delete of every attempt of the call. -/
theorem claim_C1 {σ : Type} (rl : RedLock) (impl : CacheImpl σ) (env : LockEnv)
    (resource : String) (ttl : Int) (st : σ) :
    (∀ i j tok, Event.setnx i j tok ∈ (lock rl impl env resource ttl st).2.2 →
      tok = env.tokens 0) ∧
    (∀ i j tok b, Event.cleanup i j tok b ∈ (lock rl impl env resource ttl st).2.2 →
      tok = env.tokens 0) ∧
    countGen (lock rl impl env resource ttl st).2.2 = 1 := by
  rw [lock_def]
  refine ⟨?_, ?_, ?_⟩
  · intro i j tok hmem
    simp only [List.mem_cons] at hmem
    rcases hmem with h | h
    · cases h
    · exact lockLoop_event_tok rl impl env resource ttl (env.tokens 0) _ 0 st _ h
  · intro i j tok b hmem
    simp only [List.mem_cons] at hmem
    rcases hmem with h | h
    · cases h
    · exact lockLoop_event_tok rl impl env resource ttl (env.tokens 0) _ 0 st _ h
  · unfold countGen
    rw [List.countP_cons]
    have h0 := countGen_lockLoop rl impl env resource ttl (env.tokens 0) rl.retryCount 0 st
    unfold countGen at h0
    rw [h0]
    rfl

/-- C1 witness: the amended theorem applied to the concrete failing run. -/
theorem claim_C1_witness :
    (Event.setnx 1 0 "a" ∈ failRun.2.2) ∧ ("a" : String) = failEnv.tokens 0 :=
  ⟨by decide,
    (claim_C1 oneClientLock simpleImpl failEnv "foo" 1000000000 []).1 1 0 "a" (by decide)⟩

/-- C2: at the failing input `ttl` = 1 second (`time.Duration` of 1e9 ns),
the code's drift margin `int(float64(ttl)*0.01) + 2` is 10000002 ns — the
fixed overhead added to the 1% clock-drift term is 2 nanoseconds — whereas
the drift margin prescribed by the claim, 1% of ttl plus a fixed overhead of
2 milliseconds, is 12000000 ns. -/
theorem claim_C2 :
    drift 1000000000 = 10000002 ∧
    driftSpecTwoMs 1000000000 = 12000000 ∧
    drift 1000000000 ≠ driftSpecTwoMs 1000000000 := by
  decide

/-- C3: NewRedLock rejects every even-length server list with the
construction error (returning no coordinator), and for every odd-length list
of well-formed addresses it returns a coordinator whose quorum field is
fixed, at construction, to `len(addrs)/2 + 1` (integer division) — the field
Lock's commit test reads on every attempt. -/
theorem claim_C3 (parse : String → Bool) (addrs : List String) :
    (addrs.length % 2 = 0 →
      newRedLock parse addrs = .error (.evenServerList addrs.length)) ∧
    (addrs.length % 2 = 1 → (∀ a ∈ addrs, parse a = true) →
      newRedLock parse addrs =
        .ok { retryCount := 10, retryDelay := 200,
              quorum := addrs.length / 2 + 1, clients := addrs }) := by
  constructor
  · intro h
    unfold newRedLock
    rw [if_pos h]
  · intro h hall
    unfold newRedLock
    rw [if_neg (by omega)]
    have hfind : List.find? (fun a => ¬ parse a) addrs = none := by
      rw [List.find?_eq_none]
      intro a ha
      simp [hall a ha]
    rw [hfind]

/-- C3 witness: a two-address list is rejected; a three-address list of
well-formed addresses yields quorum 2. -/
theorem claim_C3_witness :
    newRedLock (fun _ => true) ["tcp://h1:6379", "tcp://h2:6379"] =
      .error (.evenServerList 2) ∧
    newRedLock (fun _ => true) ["tcp://h1:6379", "tcp://h2:6379", "tcp://h3:6379"] =
      .ok { retryCount := 10, retryDelay := 200, quorum := 2,
            clients := ["tcp://h1:6379", "tcp://h2:6379", "tcp://h3:6379"] } :=
  ⟨(claim_C3 (fun _ => true) ["tcp://h1:6379", "tcp://h2:6379"]).1 (by decide),
    (claim_C3 (fun _ => true) ["tcp://h1:6379", "tcp://h2:6379", "tcp://h3:6379"]).2
      (by decide) (by decide)⟩

/-- C4 counterexample: a record stored through FreeCache.Set with 50 ms
validity (50000000 ns) at time 0 and read back 51 ms later (second 0 of the
underlying store's clock) is returned, not absent: FreeCache.Get applies no
lazy expiry check, and the record is still natively live. -/
theorem claim_C4_counterexample :
    (freeGet (freeSet [] 0 0 "k" "v" 50000000).1 0 "k").1 =
      some { val := "v", expiry := 50000000, ts := 0 } ∧
    ¬ (freeGet (freeSet [] 0 0 "k" "v" 50000000).1 0 "k").1 = none := by
  decide

/-- C4 as amended: the lazy expiry check on every read holds for the
mapping-based SimpleCache — Get returns nil exactly when the key is absent
or the stored record is expired relative to its Ts and Expiry, so a record
set with 50 ms validity and read 51 ms later is absent — while FreeCache.Get
returns whatever record the underlying fixed-capacity store still holds,
with no expiry check of its own. -/
theorem claim_C4 :
    (∀ (st : SimpleSt) (now : Int) (key : String),
      (simpleGet st now key).1 = none ↔
        (∀ e, List.lookup key st = some e → e.expire now = true)) ∧
    simpleGet (simpleSet [] 0 "k" "v" 50000000) 51000000 "k" = (none, none) ∧
    (∀ (st : FreeSt) (nowSec : Int) (key : String) (en : FcEntry),
      fcLookup st nowSec key = some en → freeGet st nowSec key = (some en.data, none)) := by
  refine ⟨simpleGet_none_iff, by decide, ?_⟩
  intro st nowSec key en h
  unfold freeGet
  rw [h]

/-- C4 witness: the FreeCache clause applied at the concrete stored entry. -/
theorem claim_C4_witness :
    fcLookup (freeSet [] 0 0 "k" "v" 50000000).1 0 "k" =
      some { data := { val := "v", expiry := 50000000, ts := 0 }, setSec := 0,
             ttlSec := 50000 } ∧
    freeGet (freeSet [] 0 0 "k" "v" 50000000).1 0 "k" =
      (some { val := "v", expiry := 50000000, ts := 0 }, none) :=
  ⟨by decide,
    claim_C4.2.2 (freeSet [] 0 0 "k" "v" 50000000).1 0 "k"
      { data := { val := "v", expiry := 50000000, ts := 0 }, setSec := 0, ttlSec := 50000 }
      (by decide)⟩

/-- C5: every successful Lock call returns a remaining validity that is
strictly positive and strictly below the requested ttl: the commit test
requires `validityTime > 0`, and `validityTime = ttl - costTime - drift`
with non-negative elapsed time and a drift margin that is positive whenever
the window can be positive at all. -/
theorem claim_C5 {σ : Type} (rl : RedLock) (impl : CacheImpl σ) (env : LockEnv)
    (resource : String) (ttl : Int) (st st2 : σ) (v : Int) (tr : List Event)
    (h : lock rl impl env resource ttl st = (st2, (v, none), tr)) :
    0 < v ∧ v < ttl := by
  rw [lock_def] at h
  have h2 : (lockLoop rl impl env resource ttl (env.tokens 0) 0 rl.retryCount st).2.1 =
      (v, none) := by
    have := congrArg (fun p => p.2.1) h
    simpa using this
  obtain ⟨k, _, _, hcm, hv⟩ :=
    lockLoop_ok rl impl env resource ttl (env.tokens 0) rl.retryCount 0 st
      (lockLoop rl impl env resource ttl (env.tokens 0) 0 rl.retryCount st).1 v
      (lockLoop rl impl env resource ttl (env.tokens 0) 0 rl.retryCount st).2.2
      (Prod.ext rfl (Prod.ext h2 rfl))
  subst hv
  exact ⟨hcm.2, validity_lt_ttl ttl (env.cost k) hcm.2⟩

/-- C5 witness: the concrete all-peers-acquire run with ttl 1 s returns
validity 989999998 ns, strictly between 0 and 1e9. -/
theorem claim_C5_witness :
    (0 : Int) < 989999998 ∧ (989999998 : Int) < 1000000000 :=
  claim_C5 threeClientLock simpleImpl allAcquireEnv "foo" 1000000000 []
    [("foo", { val := "t", expiry := 989999998, ts := 0 })] 989999998
    [Event.genToken "t", Event.setnx 0 0 "t", Event.setnx 0 1 "t", Event.setnx 0 2 "t",
      Event.cacheSet "foo" "t" 989999998]
    (by decide)

end RedlockSpec

namespace RedlockSpec

/-- Full unfolding of a run in which every attempt fails without
cancellation: the loop walks all its fuel and returns the acquire-failed
pair, with one failed round per attempt in the trace. -/
theorem lockLoop_all_fail {σ : Type} (rl : RedLock) (impl : CacheImpl σ) (env : LockEnv)
    (resource : String) (ttl : Int) (val : String) (st : σ)
    (h : ∀ i, i < rl.retryCount →
      hasCanceled (env.res i) rl.clients.length = false ∧ ¬ commitCond rl env ttl i) :
    lockLoop rl impl env resource ttl val 0 rl.retryCount st =
      (st, (0, some LockErr.acquireFailed),
        failedRounds env val rl.clients.length 0 rl.retryCount) := by
  have hskip := lockLoop_skip rl impl env resource ttl val rl.retryCount 0 0 st
    (fun k hk1 hk2 => h k (by omega))
  rw [lockLoop_zero] at hskip
  simpa using hskip

/-- C7: when no attempt is canceled and none meets the commit condition,
Lock runs exactly `retryCount` acquisition rounds and returns
`(0, ErrAcquireLock)`; and Lock returns a nil error only when some attempt
met the commit condition. -/
theorem claim_C7 {σ : Type} (rl : RedLock) (impl : CacheImpl σ) (env : LockEnv)
    (resource : String) (ttl : Int) (st : σ) (hn : 0 < rl.clients.length) :
    ((∀ i, i < rl.retryCount →
        hasCanceled (env.res i) rl.clients.length = false ∧ ¬ commitCond rl env ttl i) →
      (lock rl impl env resource ttl st).2.1 = (0, some LockErr.acquireFailed) ∧
      countRounds (lock rl impl env resource ttl st).2.2 = rl.retryCount) ∧
    (∀ (st2 : σ) (v : Int) (tr : List Event),
      lock rl impl env resource ttl st = (st2, (v, none), tr) →
      ∃ i, i < rl.retryCount ∧ commitCond rl env ttl i) := by
  constructor
  · intro h
    rw [lock_def, lockLoop_all_fail rl impl env resource ttl (env.tokens 0) st h]
    constructor
    · rfl
    · unfold countRounds
      rw [List.countP_cons]
      have := countRounds_failedRounds env (env.tokens 0) rl.clients.length hn
        rl.retryCount 0
      unfold countRounds at this
      rw [this]
      rfl
  · intro st2 v tr h
    rw [lock_def] at h
    have h2 : (lockLoop rl impl env resource ttl (env.tokens 0) 0 rl.retryCount st).2.1 =
        (v, none) := by
      have := congrArg (fun p => p.2.1) h
      simpa using this
    obtain ⟨k, _, hk2, hcm, _⟩ :=
      lockLoop_ok rl impl env resource ttl (env.tokens 0) rl.retryCount 0 st
        (lockLoop rl impl env resource ttl (env.tokens 0) 0 rl.retryCount st).1 v
        (lockLoop rl impl env resource ttl (env.tokens 0) 0 rl.retryCount st).2.2
        (Prod.ext rfl (Prod.ext h2 rfl))
    exact ⟨k, by omega, hcm⟩

/-- C7 witness: with one unreachable peer and quorum 2, both attempts fail,
and the concrete run returns `(0, ErrAcquireLock)` after exactly 2 rounds. -/
theorem claim_C7_witness :
    failRun.2.1 = (0, some LockErr.acquireFailed) ∧ countRounds failRun.2.2 = 2 :=
  (claim_C7 oneClientLock simpleImpl failEnv "foo" 1000000000 [] (by decide)).1
    (fun i _ => ⟨rfl, fun hc => by
      have h1 := hc.1
      have h0 : successCount (failEnv.res i) oneClientLock.clients.length = 0 := rfl
      rw [h0] at h1
      exact absurd h1 (by decide)⟩)

/-- C10: when an attempt meets the commit condition, Lock returns that
attempt's remaining validity with a nil error for every cache
implementation — including one whose Set fails — since both return values
of the ownership-cache Set are discarded. -/
theorem claim_C10 {σ : Type} (rl : RedLock) (impl : CacheImpl σ) (env : LockEnv)
    (resource : String) (ttl : Int) (st : σ) (i : Nat)
    (hi : i < rl.retryCount)
    (hprev : ∀ k, k < i →
      hasCanceled (env.res k) rl.clients.length = false ∧ ¬ commitCond rl env ttl k)
    (hnc : hasCanceled (env.res i) rl.clients.length = false)
    (hcm : commitCond rl env ttl i) :
    (lock rl impl env resource ttl st).2.1 = (validity ttl (env.cost i), none) := by
  rw [lock_def]
  have hskip := lockLoop_skip rl impl env resource ttl (env.tokens 0) i
    (rl.retryCount - i) 0 st (fun k hk1 hk2 => hprev k (by omega))
  have hrc : i + (rl.retryCount - i) = rl.retryCount := by omega
  rw [hrc] at hskip
  have hzi : 0 + i = i := by omega
  rw [hzi] at hskip
  obtain ⟨f, hf⟩ : ∃ f, rl.retryCount - i = f + 1 := ⟨rl.retryCount - i - 1, by omega⟩
  rw [hf, lockLoop_commit rl impl env resource ttl (env.tokens 0) i f st hnc hcm] at hskip
  rw [hskip]

/-- C10 witness: the all-peers-acquire run with a cache whose Set always
fails still returns `(989999998, nil)`. -/
theorem claim_C10_witness :
    (lock threeClientLock failingSetImpl allAcquireEnv "foo" 1000000000 ()).2.1 =
      (989999998, none) := by
  have h := claim_C10 threeClientLock failingSetImpl allAcquireEnv "foo" 1000000000 () 0
    (by decide) (fun k hk => absurd hk (by omega)) (by decide) (by decide)
  simpa using h

end RedlockSpec

namespace RedlockSpec

theorem simpleImpl_get (st : SimpleSt) (now : Int) (key : String) :
    simpleImpl.get st now key = simpleGet st now key :=
  rfl

/-- C6: when an attempt completes without cancellation and without meeting
the commit condition, the coordinator fans the conditional-delete out to
every peer of the set (not only those that succeeded), as one contiguous
block of cleanup operations all completed before anything later happens,
and both the returned value and the final cache state are unchanged if the
individual outcomes of those cleanup operations are replaced by any
others. -/
theorem claim_C6 {σ : Type} (rl : RedLock) (impl : CacheImpl σ) (env : LockEnv)
    (resource : String) (ttl : Int) (st : σ) (i : Nat)
    (hi : i < rl.retryCount)
    (hprev : ∀ k, k < i →
      hasCanceled (env.res k) rl.clients.length = false ∧ ¬ commitCond rl env ttl k)
    (hnc : hasCanceled (env.res i) rl.clients.length = false)
    (hcm : ¬ commitCond rl env ttl i) :
    (∀ j, j < rl.clients.length →
      Event.cleanup i j (env.tokens 0) (env.unlockRes i j) ∈
        (lock rl impl env resource ttl st).2.2) ∧
    (∃ pre post, (lock rl impl env resource ttl st).2.2 =
      pre ++ roundClean env i (env.tokens 0) rl.clients.length ++ post) ∧
    (∀ e2 : LockEnv, e2.tokens = env.tokens → e2.res = env.res → e2.cost = env.cost →
      e2.nowAt = env.nowAt →
      (lock rl impl e2 resource ttl st).1 = (lock rl impl env resource ttl st).1 ∧
      (lock rl impl e2 resource ttl st).2.1 = (lock rl impl env resource ttl st).2.1) := by
  have hskip := lockLoop_skip rl impl env resource ttl (env.tokens 0) i
    (rl.retryCount - i) 0 st (fun k hk1 hk2 => hprev k (by omega))
  have hrc : i + (rl.retryCount - i) = rl.retryCount := by omega
  rw [hrc] at hskip
  have hzi : (0 : Nat) + i = i := by omega
  rw [hzi] at hskip
  obtain ⟨f, hf⟩ : ∃ f, rl.retryCount - i = f + 1 := ⟨rl.retryCount - i - 1, by omega⟩
  rw [hf, lockLoop_fail rl impl env resource ttl (env.tokens 0) i f st hnc hcm] at hskip
  have htr : (lock rl impl env resource ttl st).2.2 =
      Event.genToken (env.tokens 0) ::
        (failedRounds env (env.tokens 0) rl.clients.length 0 i ++
          (roundSet i (env.tokens 0) rl.clients.length ++
            (roundClean env i (env.tokens 0) rl.clients.length ++
              (lockLoop rl impl env resource ttl (env.tokens 0) (i + 1) f st).2.2))) := by
    rw [lock_def, hskip]
    simp [List.append_assoc]
  refine ⟨?_, ?_, ?_⟩
  · intro j hj
    rw [htr]
    have hmem : Event.cleanup i j (env.tokens 0) (env.unlockRes i j) ∈
        roundClean env i (env.tokens 0) rl.clients.length := by
      simp only [roundClean, List.mem_map, List.mem_range]
      exact ⟨j, hj, rfl⟩
    simp only [List.mem_cons, List.mem_append]
    exact Or.inr (Or.inr (Or.inr (Or.inl hmem)))
  · refine ⟨Event.genToken (env.tokens 0) ::
      (failedRounds env (env.tokens 0) rl.clients.length 0 i ++
        roundSet i (env.tokens 0) rl.clients.length),
      (lockLoop rl impl env resource ttl (env.tokens 0) (i + 1) f st).2.2, ?_⟩
    rw [htr]
    simp [List.append_assoc]
  · intro e2 htok hres hcost hnow
    have h2 := lockLoop_unlockRes_indep rl impl e2 env resource ttl (env.tokens 0)
      hres hcost hnow rl.retryCount 0 st
    rw [lock_def, lock_def, htok]
    exact ⟨h2.1, h2.2⟩

/-- C6 witness: in the concrete failing run, attempt 0's cleanup
conditional-delete to peer 0 (carrying token "a") is in the trace. -/
theorem claim_C6_witness :
    Event.cleanup 0 0 "a" true ∈ failRun.2.2 :=
  (claim_C6 oneClientLock simpleImpl failEnv "foo" 1000000000 [] 0 (by decide)
    (fun k hk => absurd hk (by omega)) rfl (fun hc => by
      have h1 := hc.1
      have h0 : successCount (failEnv.res 0) oneClientLock.clients.length = 0 := rfl
      rw [h0] at h1
      exact absurd h1 (by decide))).1 0 (by decide)

/-- C9: when some goroutine of attempt `i` observes the caller's
cancellation (after earlier attempts failed without cancellation), Lock
returns `(0, context.Canceled)` right after that round's tasks drain: the
trace carries no cleanup operation for round `i`, no SetNX of any later
attempt, and exactly `i + 1` acquisition rounds. -/
theorem claim_C9 {σ : Type} (rl : RedLock) (impl : CacheImpl σ) (env : LockEnv)
    (resource : String) (ttl : Int) (st : σ) (i : Nat)
    (hi : i < rl.retryCount)
    (hprev : ∀ k, k < i →
      hasCanceled (env.res k) rl.clients.length = false ∧ ¬ commitCond rl env ttl k)
    (hc : hasCanceled (env.res i) rl.clients.length = true) :
    (lock rl impl env resource ttl st).2.1 = (0, some LockErr.canceled) ∧
    (∀ j tok b, Event.cleanup i j tok b ∉ (lock rl impl env resource ttl st).2.2) ∧
    (∀ k j tok, i < k → Event.setnx k j tok ∉ (lock rl impl env resource ttl st).2.2) ∧
    (0 < rl.clients.length → countRounds (lock rl impl env resource ttl st).2.2 = i + 1) := by
  have hskip := lockLoop_skip rl impl env resource ttl (env.tokens 0) i
    (rl.retryCount - i) 0 st (fun k hk1 hk2 => hprev k (by omega))
  have hrc : i + (rl.retryCount - i) = rl.retryCount := by omega
  rw [hrc] at hskip
  have hzi : (0 : Nat) + i = i := by omega
  rw [hzi] at hskip
  obtain ⟨f, hf⟩ : ∃ f, rl.retryCount - i = f + 1 := ⟨rl.retryCount - i - 1, by omega⟩
  rw [hf, lockLoop_cancel rl impl env resource ttl (env.tokens 0) i f st hc] at hskip
  have htr : (lock rl impl env resource ttl st).2.2 =
      Event.genToken (env.tokens 0) ::
        (failedRounds env (env.tokens 0) rl.clients.length 0 i ++
          roundSet i (env.tokens 0) rl.clients.length) := by
    rw [lock_def, hskip]
  refine ⟨?_, ?_, ?_, ?_⟩
  · rw [lock_def, hskip]
  · intro j tok b hmem
    rw [htr] at hmem
    simp only [List.mem_cons, List.mem_append] at hmem
    rcases hmem with h | h | h
    · cases h
    · have := cleanup_mem_failedRounds env (env.tokens 0) rl.clients.length i j tok b i 0 h
      omega
    · simp only [roundSet, List.mem_map, List.mem_range] at h
      obtain ⟨_, _, hj⟩ := h
      cases hj
  · intro k j tok hik hmem
    rw [htr] at hmem
    simp only [List.mem_cons, List.mem_append] at hmem
    rcases hmem with h | h | h
    · cases h
    · have := setnx_mem_failedRounds env (env.tokens 0) rl.clients.length k j tok i 0 h
      omega
    · have := setnx_mem_roundSet i rl.clients.length k j (env.tokens 0) tok h
      omega
  · intro hn
    rw [htr]
    unfold countRounds
    rw [List.countP_cons, List.countP_append]
    have h1 := countRounds_failedRounds env (env.tokens 0) rl.clients.length hn i 0
    unfold countRounds at h1
    rw [h1]
    have h2 := countRounds_roundSet i (env.tokens 0) rl.clients.length
    unfold countRounds at h2
    rw [h2]
    simp [hn]

/-- C9 witness: with one peer observing cancellation in the first attempt,
the concrete run returns `(0, context.Canceled)`. -/
theorem claim_C9_witness :
    (lock oneClientLock simpleImpl cancelEnv "foo" 1000000000 ([] : SimpleSt)).2.1 =
      (0, some LockErr.canceled) :=
  (claim_C9 oneClientLock simpleImpl cancelEnv "foo" 1000000000 [] 0 (by decide)
    (fun k hk => absurd hk (by omega)) rfl).1

/-- C8: an UnLock whose ownership-cache lookup yields no live record (and no
error) returns a nil error with no peer operation and leaves the cache
unchanged, for any cache implementation; and with the SimpleCache backend
two consecutive UnLock calls (at non-decreasing times) never error on the
second call, which performs no peer operation. -/
theorem claim_C8 :
    (∀ (σ : Type) (impl : CacheImpl σ) (rl : RedLock) (ures : Nat → Bool) (now : Int)
      (st : σ) (resource : String),
      impl.get st now resource = (none, none) →
      unLock rl impl ures now st resource = (st, none, [])) ∧
    (∀ (rl : RedLock) (u1 u2 : Nat → Bool) (now1 now2 : Int) (st : SimpleSt)
      (resource : String), now1 ≤ now2 →
      unLock rl simpleImpl u2 now2 (unLock rl simpleImpl u1 now1 st resource).1 resource =
        ((unLock rl simpleImpl u1 now1 st resource).1, none, [])) := by
  constructor
  · intro σ impl rl ures now st resource h
    unfold unLock
    rw [h]
  · intro rl u1 u2 now1 now2 st resource hle
    rcases hg : simpleGet st now1 resource with ⟨o, err⟩
    have herr : err = none := by
      have := simpleGet_err_none st now1 resource
      rw [hg] at this
      exact this
    subst herr
    cases o with
    | none =>
        have h1 : unLock rl simpleImpl u1 now1 st resource = (st, none, []) := by
          unfold unLock
          rw [simpleImpl_get, hg]
        rw [h1]
        have h2 : simpleGet st now2 resource = (none, none) := by
          have hnone : (simpleGet st now2 resource).1 = none := by
            rw [simpleGet_none_iff]
            intro e he
            have := (simpleGet_none_iff st now1 resource).mp (by rw [hg]) e he
            exact expire_mono e now1 now2 this hle
          have herr2 := simpleGet_err_none st now2 resource
          rcases hg2 : simpleGet st now2 resource with ⟨o2, e2⟩
          rw [hg2] at hnone herr2
          simp only at hnone herr2
          rw [hnone, herr2]
        unfold unLock
        rw [simpleImpl_get, h2]
    | some e =>
        have h1 : unLock rl simpleImpl u1 now1 st resource =
            (simpleDelete st resource, none, unlockEvents rl e.val u1) := by
          unfold unLock
          rw [simpleImpl_get, hg]
          rfl
        rw [h1]
        unfold unLock
        rw [simpleImpl_get, simpleGet_delete]

/-- C8 witness: deleting a held entry and unlocking again at a later time
returns a nil error and performs no peer operation. -/
theorem claim_C8_witness :
    unLock threeClientLock simpleImpl (fun _ => true) 1
        (unLock threeClientLock simpleImpl (fun _ => true) 0
          [("foo", { val := "v", expiry := 100, ts := 0 })] "foo").1 "foo" =
      ((unLock threeClientLock simpleImpl (fun _ => true) 0
          [("foo", { val := "v", expiry := 100, ts := 0 })] "foo").1, none, []) :=
  claim_C8.2 threeClientLock (fun _ => true) (fun _ => true) 0 1
    [("foo", { val := "v", expiry := 100, ts := 0 })] "foo" (by decide)

end RedlockSpec
